import Mathlib

/-!
Shallow embedding of `net_drawer.py` (ONNX net drawer): the pydot graph
builder `GetPydotGraph`, the operator-node producer `GetOpNodeProducer`,
the label escaper `_escape_label` (Python `json.dumps` on a string, with
`ensure_ascii=True`), the docstring sanitizer
`_form_and_sanitize_docstring`, and the `main` entry point's argument
handling (`--marked` / `--marked_list`).

Machine-level conventions: Python strings are Lean `String`s (lists of
unicode scalar values); `str(int)` on a nonnegative int is `Nat.repr`;
pydot `Node` identity is its name string, `Edge` stores the endpoint
node names; `defaultdict(int)` is a total function `String → Nat`
defaulting to `0`; the `pydot_nodes` dict is a total function
`String → Option VNode`.
-/

namespace NetDrawer

/-- Named characters (used to keep escape logic readable). -/
def quoteChar : Char := Char.ofNat 34

def backslashChar : Char := Char.ofNat 92

def aposChar : Char := Char.ofNat 39

/-- A pydot node attribute set, as passed via `**kwargs`. -/
structure Style where
  shape : Option String
  color : Option String
  style : Option String
  fontcolor : Option String
deriving DecidableEq, Repr

/-- `OP_STYLE` from the source. -/
def OP_STYLE : Style :=
  { shape := some "box", color := some "#0F9D58", style := some "filled",
    fontcolor := some "#FFFFFF" }

/-- `OP_STYLE_1` from the source (highlight style). -/
def OP_STYLE_1 : Style :=
  { shape := some "box", color := some "#930e9d", style := some "filled",
    fontcolor := some "#FFFFFF" }

/-- `BLOB_STYLE` from the source. -/
def BLOB_STYLE : Style :=
  { shape := some "octagon", color := none, style := none, fontcolor := none }

/-- A pydot visual node: identity string, optional `label` attribute,
style attributes, optional `URL` attribute. -/
structure VNode where
  name : String
  label : Option String
  style : Style
  url : Option String
deriving DecidableEq, Repr

/-- A pydot edge, by endpoint node identities (source, destination). -/
structure Edge where
  src : String
  dst : String
deriving DecidableEq, Repr

/-- The pydot `Dot` graph being built. -/
structure VGraph where
  name : Option String
  rankdir : String
  nodes : List VNode
  edges : List Edge
deriving DecidableEq, Repr

def addNode (g : VGraph) (n : VNode) : VGraph :=
  { g with nodes := g.nodes ++ [n] }

def addEdge (g : VGraph) (e : Edge) : VGraph :=
  { g with edges := g.edges ++ [e] }

/-- Four lowercase hex digits, as produced by Python `'\u%04x'`. -/
def toHex4 (n : Nat) : List Char :=
  [Nat.digitChar (n / 4096 % 16), Nat.digitChar (n / 256 % 16),
   Nat.digitChar (n / 16 % 16), Nat.digitChar (n % 16)]

/-- Per-character escape of Python `json.dumps` (default `ensure_ascii=True`):
quote and backslash get a backslash; the named control characters use their
short escapes; other controls and all non-ASCII scalars use `\uXXXX`, with
surrogate pairs above `0xFFFF`; printable ASCII passes through. -/
def escChar (c : Char) : List Char :=
  if c = quoteChar then [backslashChar, quoteChar]
  else if c = backslashChar then [backslashChar, backslashChar]
  else if c = Char.ofNat 10 then [backslashChar, 'n']
  else if c = Char.ofNat 13 then [backslashChar, 'r']
  else if c = Char.ofNat 9 then [backslashChar, 't']
  else if c = Char.ofNat 8 then [backslashChar, 'b']
  else if c = Char.ofNat 12 then [backslashChar, 'f']
  else if c.toNat < 32 then backslashChar :: 'u' :: toHex4 c.toNat
  else if c.toNat < 127 then [c]
  else if c.toNat < 65536 then backslashChar :: 'u' :: toHex4 c.toNat
  else
    (backslashChar :: 'u' :: toHex4 (55296 + (c.toNat - 65536) / 1024)) ++
    (backslashChar :: 'u' :: toHex4 (56320 + (c.toNat - 65536) % 1024))

def escList : List Char → List Char
  | [] => []
  | c :: cs => escChar c ++ escList cs

/-- `_escape_label(name)`, i.e. `json.dumps(name)`: the escaped body
wrapped in double quotes. -/
def escape_label (name : String) : String :=
  String.mk (quoteChar :: (escList name.data ++ [quoteChar]))

def replaceChar (a b : Char) (l : List Char) : List Char :=
  l.map fun c => if c = a then b else c

def removeChar (a : Char) (l : List Char) : List Char :=
  l.filter fun c => decide (c ≠ a)

/-- `_form_and_sanitize_docstring(s)`: wrap the escaped docstring in
`javascript:alert(...)`, replacing double quotes by single quotes and
deleting angle brackets. -/
def form_and_sanitize_docstring (s : String) : String :=
  String.mk ("javascript:alert(".data ++
    (removeChar '>' (removeChar '<'
      (replaceChar quoteChar aposChar (escape_label s).data))) ++ [')'])

/-- Hex digit value of a character (lowercase), for reading back `\uXXXX`. -/
def fromHexDigit (c : Char) : Option Nat :=
  if c = '0' then some 0 else if c = '1' then some 1 else if c = '2' then some 2
  else if c = '3' then some 3 else if c = '4' then some 4 else if c = '5' then some 5
  else if c = '6' then some 6 else if c = '7' then some 7 else if c = '8' then some 8
  else if c = '9' then some 9 else if c = 'a' then some 10 else if c = 'b' then some 11
  else if c = 'c' then some 12 else if c = 'd' then some 13 else if c = 'e' then some 14
  else if c = 'f' then some 15 else none

/-- After a high surrogate `\uXXXX`, read the matching low surrogate and
recombine the astral scalar value. -/
def decodeHexPair (n : Nat) : List Char → Option (Char × List Char)
  | b2 :: u2 :: e1 :: e2 :: e3 :: e4 :: rest4 =>
    if b2 = backslashChar ∧ u2 = 'u' then
      match fromHexDigit e1, fromHexDigit e2, fromHexDigit e3, fromHexDigit e4 with
      | some a2, some b2x, some c2, some d2x =>
        let m := a2 * 4096 + b2x * 256 + c2 * 16 + d2x
        if 56320 ≤ m ∧ m ≤ 57343 then
          some (Char.ofNat (65536 + (n - 55296) * 1024 + (m - 56320)), rest4)
        else none
      | _, _, _, _ => none
    else none
  | _ => none

/-- Interpret the value of one `\uXXXX`: a high surrogate must be followed
by a low surrogate; a lone low surrogate is rejected. -/
def decodeHex (n : Nat) (rest : List Char) : Option (Char × List Char) :=
  if 55296 ≤ n ∧ n ≤ 56319 then decodeHexPair n rest
  else if 56320 ≤ n ∧ n ≤ 57343 then none
  else some (Char.ofNat n, rest)

/-- Decode one character of a JSON string body (the inverse reading of
`escChar`); an unescaped quote is not a character. -/
def decodeStep : List Char → Option (Char × List Char)
  | [] => none
  | c :: rest =>
    if c = backslashChar then
      match rest with
      | [] => none
      | e :: rest2 =>
        if e = quoteChar then some (quoteChar, rest2)
        else if e = backslashChar then some (backslashChar, rest2)
        else if e = 'n' then some (Char.ofNat 10, rest2)
        else if e = 'r' then some (Char.ofNat 13, rest2)
        else if e = 't' then some (Char.ofNat 9, rest2)
        else if e = 'b' then some (Char.ofNat 8, rest2)
        else if e = 'f' then some (Char.ofNat 12, rest2)
        else if e = 'u' then
          match rest2 with
          | d1 :: d2 :: d3 :: d4 :: rest3 =>
            match fromHexDigit d1, fromHexDigit d2, fromHexDigit d3, fromHexDigit d4 with
            | some a, some b, some c3, some d =>
                decodeHex (a * 4096 + b * 256 + c3 * 16 + d) rest3
            | _, _, _, _ => none
          | _ => none
        else none
    else if c = quoteChar then none
    else some (c, rest)

def consR (c : Char) (o : Option (List Char × List Char)) : Option (List Char × List Char) :=
  o.map fun p => (c :: p.1, p.2)

/-- Fuel-bounded JSON string-body lexer: scan decoded characters until the
unescaped closing quote, returning the decoded body and what follows the
closing quote. -/
def decodeBodyF : Nat → List Char → Option (List Char × List Char)
  | 0, _ => none
  | fuel + 1, l =>
    match l with
    | [] => none
    | c :: rest =>
      if c = quoteChar then some ([], rest)
      else
        match decodeStep (c :: rest) with
        | none => none
        | some (ch, rest2) => consR ch (decodeBodyF fuel rest2)

/-- Read a full quoted label: an opening quote, a body, and the closing
quote consuming the whole input (no premature termination). -/
def decodeLabel (s : String) : Option String :=
  match s.data with
  | [] => none
  | c :: rest =>
    if c = quoteChar then
      match decodeBodyF rest.length rest with
      | some (body, []) => some (String.mk body)
      | _ => none
    else none

/-- An ONNX `NodeProto` as used by the drawer. -/
structure Op where
  name : String
  op_type : String
  input : List String
  output : List String
  doc_string : String
deriving DecidableEq, Repr

/-- The head line of an operator node's name: `'%s/%s (op#%d)'` when
`op.name` is truthy, else `'%s (op#%d)'`. -/
def baseOpName (op : Op) (op_id : Nat) : String :=
  if op.name ≠ "" then
    op.name ++ "/" ++ op.op_type ++ " (op#" ++ Nat.repr op_id ++ ")"
  else
    op.op_type ++ " (op#" ++ Nat.repr op_id ++ ")"

/-- The `for i, x in enumerate(...)` loop appending
`'\n <tag>' + str(i) + ' ' + x` for each element. -/
def addIndexedLines (tag : String) : String → Nat → List String → String
  | acc, _, [] => acc
  | acc, i, s :: rest =>
      addIndexedLines tag (acc ++ "\n " ++ tag ++ Nat.repr i ++ " " ++ s) (i + 1) rest

/-- `ReallyGetOpNode(op, op_id, **kwargs)` from `GetOpNodeProducer`. -/
def ReallyGetOpNode (embed_docstring : Bool) (op : Op) (op_id : Nat)
    (kwargs : Style) : VNode :=
  let node_name :=
    addIndexedLines "output" (addIndexedLines "input" (baseOpName op op_id) 0 op.input)
      0 op.output
  { name := node_name, label := none, style := kwargs,
    url := if embed_docstring then some (form_and_sanitize_docstring op.doc_string)
           else none }

/-- `GetOpNodeProducer(embed_docstring)` returns `ReallyGetOpNode`. -/
def GetOpNodeProducer (embed_docstring : Bool) : Op → Nat → Style → VNode :=
  ReallyGetOpNode embed_docstring

/-- Identity of a value node: `_escape_label(name + str(count))`. -/
def valueNodeId (name : String) (count : Nat) : String :=
  escape_label (name ++ Nat.repr count)

/-- A value (blob) node as created in `GetPydotGraph`:
identity `_escape_label(name + str(count))`, label `_escape_label(name)`,
`**BLOB_STYLE`. -/
def makeValueNode (name : String) (count : Nat) : VNode :=
  { name := valueNodeId name count, label := some (escape_label name),
    style := BLOB_STYLE, url := none }

/-- Loop state of `GetPydotGraph`: the graph built so far, the
`pydot_nodes` dict and the `pydot_node_counts` defaultdict. -/
structure BuildState where
  graph : VGraph
  nodes : String → Option VNode
  counts : String → Nat

/-- Pointwise update of a string-keyed map. -/
def updFn {α : Type} (f : String → α) (k : String) (v : α) : String → α :=
  fun s => if s = k then v else f s

/-- Body of `for input_name in op.input`: reuse or create the value node,
add it to the graph, and add the edge value-node → operator-node. -/
def processInput (opNodeName : String) (st : BuildState)
    (input_name : String) : BuildState :=
  match st.nodes input_name with
  | none =>
      let input_node := makeValueNode input_name (st.counts input_name)
      { graph := addEdge (addNode st.graph input_node) ⟨input_node.name, opNodeName⟩,
        nodes := updFn st.nodes input_name input_node,
        counts := st.counts }
  | some input_node =>
      { st with graph := addEdge (addNode st.graph input_node) ⟨input_node.name, opNodeName⟩ }

/-- Body of `for output_name in op.output`: bump the per-name counter when
the name already has a value node, create the new value node under the
(possibly bumped) counter, overwrite the dict entry, add node then the
edge operator-node → value-node. -/
def processOutput (opNodeName : String) (st : BuildState)
    (output_name : String) : BuildState :=
  let counts :=
    match st.nodes output_name with
    | some _ => updFn st.counts output_name (st.counts output_name + 1)
    | none => st.counts
  let output_node := makeValueNode output_name (counts output_name)
  { graph := addEdge (addNode st.graph output_node) ⟨opNodeName, output_node.name⟩,
    nodes := updFn st.nodes output_name output_node,
    counts := counts }

/-- Body of `for op_id, op in enumerate(graph.node)`: produce the operator
node with `OP_STYLE_1` when `op_id in marked_list` else `OP_STYLE`, add it,
then process the inputs and the outputs. -/
def processOp (node_producer : Op → Nat → Style → VNode) (marked_list : List Int)
    (st : BuildState) (op : Op) (op_id : Nat) : BuildState :=
  let op_node :=
    if (op_id : Int) ∈ marked_list then node_producer op op_id OP_STYLE_1
    else node_producer op op_id OP_STYLE
  let st1 : BuildState := { st with graph := addNode st.graph op_node }
  let st2 := op.input.foldl (processInput op_node.name) st1
  op.output.foldl (processOutput op_node.name) st2

/-- The enumerated loop over `graph.node`. -/
def buildLoop (node_producer : Op → Nat → Style → VNode) (marked_list : List Int) :
    BuildState → Nat → List Op → BuildState
  | st, _, [] => st
  | st, op_id, op :: rest =>
      buildLoop node_producer marked_list
        (processOp node_producer marked_list st op op_id) (op_id + 1) rest

/-- The state at entry of `GetPydotGraph`: empty `pydot.Dot(name, rankdir)`,
empty dict, zero counters. -/
def initState (name : Option String) (rankdir : String) : BuildState :=
  { graph := { name := name, rankdir := rankdir, nodes := [], edges := [] },
    nodes := fun _ => none,
    counts := fun _ => 0 }

/-- `GetPydotGraph(graph, name, rankdir, node_producer, embed_docstring,
marked_list)`. -/
def GetPydotGraph (graph : List Op) (name : Option String) (rankdir : String)
    (node_producer : Option (Op → Nat → Style → VNode))
    (embed_docstring : Bool) (marked_list : List Int) : VGraph :=
  let np := node_producer.getD (GetOpNodeProducer embed_docstring)
  (buildLoop np marked_list (initState name rankdir) 0 graph).graph

/-- Recognize an operator node in the output by its style attributes
(value nodes carry `BLOB_STYLE`, which differs from both op styles). -/
def isOpNode (n : VNode) : Bool :=
  decide (n.style = OP_STYLE) || decide (n.style = OP_STYLE_1)

/-- The style an operator at a given index receives. -/
def styleFor (marked_list : List Int) (op_id : Nat) : Style :=
  if (op_id : Int) ∈ marked_list then OP_STYLE_1 else OP_STYLE

/-- The operator nodes `GetPydotGraph` creates for an enumerated operator
list, starting at a given index. -/
def expectedOpNodes (embed_docstring : Bool) (marked_list : List Int) :
    Nat → List Op → List VNode
  | _, [] => []
  | i, op :: rest =>
      ReallyGetOpNode embed_docstring op i (styleFor marked_list i) ::
        expectedOpNodes embed_docstring marked_list (i + 1) rest

/-- Every edge's endpoints name nodes present in the graph. -/
def edgesClosedB (g : VGraph) : Bool :=
  g.edges.all fun e =>
    (g.nodes.any fun n => n.name == e.src) && (g.nodes.any fun n => n.name == e.dst)

/-- The intermediate build states after each input of an operator is
processed. -/
def inputStates (opName : String) : BuildState → List String → List BuildState
  | _, [] => []
  | st, i :: rest =>
      let st2 := processInput opName st i
      st2 :: inputStates opName st2 rest

/-- The intermediate build states after each output of an operator is
processed. -/
def outputStates (opName : String) : BuildState → List String → List BuildState
  | _, [] => []
  | st, o :: rest =>
      let st2 := processOutput opName st o
      st2 :: outputStates opName st2 rest

/-- The intermediate build states while one operator is processed: after
its node is added, then after each input, then after each output. -/
def opStates (node_producer : Op → Nat → Style → VNode) (marked_list : List Int)
    (st : BuildState) (op : Op) (op_id : Nat) : List BuildState :=
  let op_node :=
    if (op_id : Int) ∈ marked_list then node_producer op op_id OP_STYLE_1
    else node_producer op op_id OP_STYLE
  let st1 : BuildState := { st with graph := addNode st.graph op_node }
  let inSts := inputStates op_node.name st1 op.input
  st1 :: inSts ++ outputStates op_node.name (inSts.getLastD st1) op.output

/-- All intermediate build states of the main loop, in order. -/
def buildStates (node_producer : Op → Nat → Style → VNode) (marked_list : List Int) :
    BuildState → Nat → List Op → List BuildState
  | _, _, [] => []
  | st, op_id, op :: rest =>
      opStates node_producer marked_list st op op_id ++
        buildStates node_producer marked_list
          (processOp node_producer marked_list st op op_id) (op_id + 1) rest

/-- Python whitespace stripped by `int(str)`. -/
def isPySpace (c : Char) : Bool :=
  c == ' ' || c == Char.ofNat 9 || c == Char.ofNat 10 || c == Char.ofNat 13 ||
    c == Char.ofNat 11 || c == Char.ofNat 12

def pyStrip (l : List Char) : List Char :=
  ((l.dropWhile isPySpace).reverse.dropWhile isPySpace).reverse

def decDigit (c : Char) : Option Nat :=
  if 48 ≤ c.toNat ∧ c.toNat ≤ 57 then some (c.toNat - 48) else none

def digitsVal : List Char → Nat → Option Nat
  | [], acc => some acc
  | c :: rest, acc =>
    match decDigit c with
    | some d => digitsVal rest (acc * 10 + d)
    | none => none

/-- Python `int(s)` on ASCII decimal literals: optional surrounding
whitespace, optional sign, a nonempty digit run; anything else raises
`ValueError`, modelled as `none`. -/
def pyInt (s : String) : Option Int :=
  match pyStrip s.data with
  | [] => none
  | c :: rest =>
    if c = '-' then
      match rest with
      | [] => none
      | _ => (digitsVal rest 0).map fun n => -(n : Int)
    else if c = '+' then
      match rest with
      | [] => none
      | _ => (digitsVal rest 0).map fun n => (n : Int)
    else (digitsVal (c :: rest) 0).map fun n => (n : Int)

/-- Python `str.split(sep)` for a one-character separator (the empty
string splits to one empty token). -/
def splitChar (sep : Char) : List Char → List (List Char)
  | [] => [[]]
  | c :: rest =>
    if c = sep then [] :: splitChar sep rest
    else
      match splitChar sep rest with
      | [] => [[c]]
      | h :: t => (c :: h) :: t

/-- The list comprehension `[int(e) for e in tokens]`: convert tokens
left to right; the first `ValueError` aborts. -/
def intListLoop : List (List Char) → Option (List Int)
  | [] => some []
  | t :: rest =>
    match pyInt (String.mk t) with
    | none => none
    | some v => (intListLoop rest).map fun l => v :: l

/-- `main`'s highlight-list computation:
`[int(e) for e in args.marked_list.split('_')] if args.marked else []`,
where a `ValueError` from `int` is `none`. -/
def computeMarkedList (marked : Bool) (marked_list : String) : Option (List Int) :=
  if marked then intListLoop (splitChar '_' marked_list.data)
  else some []

/-- Outcome of `main` after argument parsing: the marked-list conversion
crashes first, then the model file is read, then the graph is built. -/
inductive MainResult where
  | argError
  | readError
  | ok (g : VGraph)
deriving DecidableEq

/-- The order of effects in `main`: the highlight list is converted before
the input file is opened; `modelFile` stands for the outcome of reading
and parsing the input (graph name and operator list). -/
def mainModel (marked : Bool) (marked_list : String) (rankdir : String)
    (embed_docstring : Bool) (modelFile : Option (String × List Op)) : MainResult :=
  match computeMarkedList marked marked_list with
  | none => MainResult.argError
  | some ml =>
    match modelFile with
    | none => MainResult.readError
    | some f =>
        MainResult.ok (GetPydotGraph f.2 (some f.1) rankdir
          (some (GetOpNodeProducer embed_docstring)) false ml)

/-- Concatenation of a list of strings (for stating label formulas). -/
def joinLines : List String → String
  | [] => ""
  | s :: rest => s ++ joinLines rest

/-- Invariant: the `pydot_nodes` dict holds only value (blob) nodes. -/
def MapBlob (st : BuildState) : Prop :=
  ∀ nm v, st.nodes nm = some v → v.style = BLOB_STYLE

/-- A node with the given identity has been added to the graph. -/
def NamePresent (o : String) (g : VGraph) : Prop :=
  ∃ n ∈ g.nodes, n.name = o

/-- Every edge of the graph connects nodes present in the graph. -/
def EdgesClosed (g : VGraph) : Prop :=
  ∀ e ∈ g.edges, NamePresent e.src g ∧ NamePresent e.dst g

/-- Decimal digit characters of a natural number, most significant first
(the specification of `Nat.repr` via `Nat.digits`). -/
def reprChars (n : Nat) : List Char :=
  if n = 0 then ['0'] else ((Nat.digits 10 n).map Nat.digitChar).reverse

/-!
## Theorems

Facts about the embedded program, leading to the claim theorems.
-/

theorem fromHexDigit_digitChar : ∀ k, k < 16 → fromHexDigit (Nat.digitChar k) = some k := by decide

theorem char_ofNat_toNat (c : Char) : Char.ofNat c.toNat = c := by
  have h : c.toNat.isValidChar := c.valid
  unfold Char.ofNat
  rw [dif_pos h]
  apply Char.eq_of_val_eq
  apply UInt32.eq_of_toBitVec_eq
  apply BitVec.eq_of_toNat_eq
  rfl

theorem char_valid_nat (c : Char) :
    c.toNat < 55296 ∨ (57343 < c.toNat ∧ c.toNat < 1114112) := c.valid

theorem decodeStep_u (d1 d2 d3 d4 : Char) (r : List Char) (a b c3 d : Nat)
    (h1 : fromHexDigit d1 = some a) (h2 : fromHexDigit d2 = some b)
    (h3 : fromHexDigit d3 = some c3) (h4 : fromHexDigit d4 = some d) :
    decodeStep (backslashChar :: 'u' :: d1 :: d2 :: d3 :: d4 :: r) =
      decodeHex (a * 4096 + b * 256 + c3 * 16 + d) r := by
  have hq : 'u' ≠ quoteChar := by decide
  have hb : 'u' ≠ backslashChar := by decide
  simp [decodeStep, h1, h2, h3, h4, hq, hb]

theorem decodeStep_toHex4 (v : Nat) (hv : v < 65536) (r : List Char) :
    decodeStep (backslashChar :: 'u' :: (toHex4 v ++ r)) = decodeHex v r := by
  have e1 : fromHexDigit (Nat.digitChar (v / 4096 % 16)) = some (v / 4096 % 16) :=
    fromHexDigit_digitChar _ (Nat.mod_lt _ (by norm_num))
  have e2 : fromHexDigit (Nat.digitChar (v / 256 % 16)) = some (v / 256 % 16) :=
    fromHexDigit_digitChar _ (Nat.mod_lt _ (by norm_num))
  have e3 : fromHexDigit (Nat.digitChar (v / 16 % 16)) = some (v / 16 % 16) :=
    fromHexDigit_digitChar _ (Nat.mod_lt _ (by norm_num))
  have e4 : fromHexDigit (Nat.digitChar (v % 16)) = some (v % 16) :=
    fromHexDigit_digitChar _ (Nat.mod_lt _ (by norm_num))
  have := decodeStep_u _ _ _ _ r _ _ _ _ e1 e2 e3 e4
  simp only [toHex4, List.cons_append, List.nil_append]
  rw [this]
  congr 1
  omega


theorem decodeHexPair_u (n : Nat) (d1 d2 d3 d4 : Char) (r : List Char) (a b c3 d : Nat)
    (h1 : fromHexDigit d1 = some a) (h2 : fromHexDigit d2 = some b)
    (h3 : fromHexDigit d3 = some c3) (h4 : fromHexDigit d4 = some d) :
    decodeHexPair n (backslashChar :: 'u' :: d1 :: d2 :: d3 :: d4 :: r) =
      (if 56320 ≤ a * 4096 + b * 256 + c3 * 16 + d ∧ a * 4096 + b * 256 + c3 * 16 + d ≤ 57343 then
        some (Char.ofNat (65536 + (n - 55296) * 1024 + (a * 4096 + b * 256 + c3 * 16 + d - 56320)), r)
      else none) := by
  have f1 : 'u' = 'u' := rfl
  simp [decodeHexPair, h1, h2, h3, h4]

theorem decodeHexPair_toHex4 (n v : Nat) (hv : v < 65536) (r : List Char) :
    decodeHexPair n (backslashChar :: ('u' :: (toHex4 v ++ r))) =
      (if 56320 ≤ v ∧ v ≤ 57343 then
        some (Char.ofNat (65536 + (n - 55296) * 1024 + (v - 56320)), r)
      else none) := by
  have e1 : fromHexDigit (Nat.digitChar (v / 4096 % 16)) = some (v / 4096 % 16) :=
    fromHexDigit_digitChar _ (Nat.mod_lt _ (by norm_num))
  have e2 : fromHexDigit (Nat.digitChar (v / 256 % 16)) = some (v / 256 % 16) :=
    fromHexDigit_digitChar _ (Nat.mod_lt _ (by norm_num))
  have e3 : fromHexDigit (Nat.digitChar (v / 16 % 16)) = some (v / 16 % 16) :=
    fromHexDigit_digitChar _ (Nat.mod_lt _ (by norm_num))
  have e4 : fromHexDigit (Nat.digitChar (v % 16)) = some (v % 16) :=
    fromHexDigit_digitChar _ (Nat.mod_lt _ (by norm_num))
  simp only [toHex4, List.cons_append, List.nil_append]
  rw [decodeHexPair_u _ _ _ _ _ _ _ _ _ _ e1 e2 e3 e4]
  have hm : v / 4096 % 16 * 4096 + v / 256 % 16 * 256 + v / 16 % 16 * 16 + v % 16 = v := by
    omega
  rw [hm]

theorem decodeBodyF_escChar (c : Char) (fuel : Nat) (s : List Char) :
    decodeBodyF (fuel + 1) (escChar c ++ s) = consR c (decodeBodyF fuel s) := by
  have bq : ¬ (backslashChar = quoteChar) := by decide
  by_cases h1 : c = quoteChar
  · simp [escChar, h1, decodeBodyF, decodeStep, bq]
  by_cases h2 : c = backslashChar
  · simp [escChar, h1, h2, decodeBodyF, decodeStep, bq]
  by_cases h3 : c = Char.ofNat 10
  · have f1 : ¬ (Char.ofNat 10 = quoteChar) := by decide
    have f2 : ¬ (Char.ofNat 10 = backslashChar) := by decide
    have ds : decodeStep (backslashChar :: 'n' :: s) = some (Char.ofNat 10, s) := rfl
    simp [escChar, h1, h2, h3, f1, f2, decodeBodyF, bq, ds, consR]
  by_cases h4 : c = Char.ofNat 13
  · have f1 : ¬ (Char.ofNat 13 = quoteChar) := by decide
    have f2 : ¬ (Char.ofNat 13 = backslashChar) := by decide
    have ds : decodeStep (backslashChar :: 'r' :: s) = some (Char.ofNat 13, s) := rfl
    simp [escChar, h1, h2, h3, h4, f1, f2, decodeBodyF, bq, ds, consR]
  by_cases h5 : c = Char.ofNat 9
  · have f1 : ¬ (Char.ofNat 9 = quoteChar) := by decide
    have f2 : ¬ (Char.ofNat 9 = backslashChar) := by decide
    have ds : decodeStep (backslashChar :: 't' :: s) = some (Char.ofNat 9, s) := rfl
    simp [escChar, h1, h2, h3, h4, h5, f1, f2, decodeBodyF, bq, ds, consR]
  by_cases h6 : c = Char.ofNat 8
  · have f1 : ¬ (Char.ofNat 8 = quoteChar) := by decide
    have f2 : ¬ (Char.ofNat 8 = backslashChar) := by decide
    have ds : decodeStep (backslashChar :: 'b' :: s) = some (Char.ofNat 8, s) := rfl
    simp [escChar, h1, h2, h3, h4, h5, h6, f1, f2, decodeBodyF, bq, ds, consR]
  by_cases h7 : c = Char.ofNat 12
  · have f1 : ¬ (Char.ofNat 12 = quoteChar) := by decide
    have f2 : ¬ (Char.ofNat 12 = backslashChar) := by decide
    have ds : decodeStep (backslashChar :: 'f' :: s) = some (Char.ofNat 12, s) := rfl
    simp [escChar, h1, h2, h3, h4, h5, h6, h7, f1, f2, decodeBodyF, bq, ds, consR]
  by_cases h8 : c.toNat < 32
  · have hv : c.toNat < 65536 := by omega
    have ds := decodeStep_toHex4 c.toNat hv s
    have hdh : decodeHex c.toNat s = some (Char.ofNat c.toNat, s) := by
      have : ¬ (55296 ≤ c.toNat ∧ c.toNat ≤ 56319) := by omega
      have h2' : ¬ (56320 ≤ c.toNat ∧ c.toNat ≤ 57343) := by omega
      simp [decodeHex, this, h2']
    rw [hdh, char_ofNat_toNat] at ds
    simp only [escChar, if_neg h1, if_neg h2, if_neg h3, if_neg h4, if_neg h5, if_neg h6,
      if_neg h7, if_pos h8, List.cons_append]
    simp [decodeBodyF, bq, ds]
  by_cases h9 : c.toNat < 127
  · have hcq : ¬ (c = quoteChar) := h1
    have hcb : ¬ (c = backslashChar) := h2
    have ds : decodeStep (c :: s) = some (c, s) := by
      simp [decodeStep, hcq, hcb]
    simp only [escChar, if_neg h1, if_neg h2, if_neg h3, if_neg h4, if_neg h5, if_neg h6,
      if_neg h7, if_neg h8, if_pos h9, List.cons_append, List.nil_append]
    simp [decodeBodyF, hcq, ds]
  by_cases h10 : c.toNat < 65536
  · have ds := decodeStep_toHex4 c.toNat h10 s
    have hval := char_valid_nat c
    have hdh : decodeHex c.toNat s = some (Char.ofNat c.toNat, s) := by
      have hn1 : ¬ (55296 ≤ c.toNat ∧ c.toNat ≤ 56319) := by omega
      have hn2 : ¬ (56320 ≤ c.toNat ∧ c.toNat ≤ 57343) := by omega
      simp [decodeHex, hn1, hn2]
    rw [hdh, char_ofNat_toNat] at ds
    simp only [escChar, if_neg h1, if_neg h2, if_neg h3, if_neg h4, if_neg h5, if_neg h6,
      if_neg h7, if_neg h8, if_neg h9, if_pos h10, List.cons_append]
    simp [decodeBodyF, bq, ds]
  · -- astral plane: surrogate pair
    have hval := char_valid_nat c
    have hhi : 55296 + (c.toNat - 65536) / 1024 < 65536 := by omega
    have dsl := decodeStep_toHex4 (55296 + (c.toNat - 65536) / 1024) hhi
      (backslashChar :: ('u' :: (toHex4 (56320 + (c.toNat - 65536) % 1024) ++ s)))
    have hlo16 : 56320 + (c.toNat - 65536) % 1024 < 65536 := by omega
    have hpair : decodeHex (55296 + (c.toNat - 65536) / 1024)
        (backslashChar :: ('u' :: (toHex4 (56320 + (c.toNat - 65536) % 1024) ++ s))) =
        some (c, s) := by
      have hrange : 55296 ≤ 55296 + (c.toNat - 65536) / 1024 ∧
          55296 + (c.toNat - 65536) / 1024 ≤ 56319 := by omega
      rw [decodeHex, if_pos hrange, decodeHexPair_toHex4 _ _ hlo16, if_pos (by omega)]
      have harith : 65536 + (55296 + (c.toNat - 65536) / 1024 - 55296) * 1024 +
          (56320 + (c.toNat - 65536) % 1024 - 56320) = c.toNat := by omega
      rw [harith, char_ofNat_toNat]
    have cons_step : ∀ (f : Nat) (ch : Char) (rest : List Char), ¬ ch = quoteChar →
        decodeBodyF (f + 1) (ch :: rest) =
          (match decodeStep (ch :: rest) with
            | none => none
            | some (c2, rest2) => consR c2 (decodeBodyF f rest2)) := by
      intro f ch rest h
      simp [decodeBodyF, h]
    simp only [escChar, if_neg h1, if_neg h2, if_neg h3, if_neg h4, if_neg h5, if_neg h6,
      if_neg h7, if_neg h8, if_neg h9, if_neg h10, List.cons_append, List.append_assoc,
      List.cons_append, List.nil_append]
    rw [cons_step _ _ _ bq]
    rw [dsl, hpair]

theorem decodeBodyF_escList : ∀ (l : List Char) (fuel : Nat) (s : List Char),
    decodeBodyF (l.length + fuel) (escList l ++ s) =
      Option.map (fun p => (l ++ p.1, p.2)) (decodeBodyF fuel s) := by
  intro l
  induction l with
  | nil =>
    intro fuel s
    simp only [List.length_nil, Nat.zero_add, escList, List.nil_append]
    cases h : decodeBodyF fuel s with
    | none => simp
    | some p => simp
  | cons c l ih =>
    intro fuel s
    have hlen : (c :: l).length + fuel = (l.length + fuel) + 1 := by
      simp [List.length_cons]
      omega
    rw [hlen]
    simp only [escList, List.append_assoc]
    rw [decodeBodyF_escChar, ih]
    cases h : decodeBodyF fuel s with
    | none => simp [consR]
    | some p => simp [consR]

theorem escChar_length_pos (c : Char) : 1 ≤ (escChar c).length := by
  unfold escChar
  repeat' split
  all_goals simp [toHex4]

theorem escList_length_ge : ∀ l : List Char, l.length ≤ (escList l).length := by
  intro l
  induction l with
  | nil => simp [escList]
  | cons c l ih =>
    have := escChar_length_pos c
    simp only [escList, List.length_append, List.length_cons]
    omega

theorem decodeLabel_escape (s : String) : decodeLabel (escape_label s) = some s := by
  unfold escape_label decodeLabel
  simp only []
  rw [if_pos trivial]
  have hle := escList_length_ge s.data
  have hlen : (escList s.data ++ [quoteChar]).length =
      s.data.length + (((escList s.data).length - s.data.length) + 1) := by
    simp only [List.length_append, List.length_cons, List.length_nil]
    omega
  rw [hlen, decodeBodyF_escList s.data (((escList s.data).length - s.data.length) + 1) [quoteChar]]
  have hq : decodeBodyF (((escList s.data).length - s.data.length) + 1) [quoteChar] =
      some ([], []) := by
    simp [decodeBodyF]
  rw [hq]
  cases s
  simp

theorem escape_label_inj (a b : String) (h : escape_label a = escape_label b) : a = b := by
  have ha := decodeLabel_escape a
  have hb := decodeLabel_escape b
  rw [h, hb] at ha
  exact Option.some_injective _ ha.symm

theorem toDigitsCore_eq (f : Nat) : ∀ (n : Nat) (ds : List Char), n < f →
    Nat.toDigitsCore 10 f n ds = reprChars n ++ ds := by
  induction f with
  | zero => intro n ds h; omega
  | succ f ih =>
    intro n ds h
    show Nat.toDigitsCore 10 (f + 1) n ds = reprChars n ++ ds
    rw [Nat.toDigitsCore]
    by_cases h0 : n / 10 = 0
    · rw [if_pos h0]
      by_cases hn : n = 0
      · subst hn
        simp [reprChars]
        rfl
      · have hlt : n < 10 := by omega
        have hd : Nat.digits 10 n = [n] := Nat.digits_of_lt 10 n hn hlt
        simp [reprChars, hn, hd, Nat.mod_eq_of_lt hlt]
    · rw [if_neg h0]
      have hn : n ≠ 0 := by omega
      have hnpos : 0 < n := by omega
      have hstep : n / 10 < f := by
        have : n / 10 < n := Nat.div_lt_self hnpos (by norm_num)
        omega
      rw [ih (n / 10) _ hstep]
      have hdig : Nat.digits 10 n = n % 10 :: Nat.digits 10 (n / 10) :=
        Nat.digits_def' (by norm_num) hnpos
      have : reprChars n = reprChars (n / 10) ++ [Nat.digitChar (n % 10)] := by
        simp only [reprChars, if_neg hn, if_neg h0, hdig, List.map_cons, List.reverse_cons]
      rw [this, List.append_assoc]
      rfl

theorem repr_eq_reprChars (n : Nat) : Nat.repr n = String.mk (reprChars n) := by
  show (Nat.toDigits 10 n).asString = String.mk (reprChars n)
  rw [Nat.toDigits, toDigitsCore_eq (n + 1) n [] (by omega), List.append_nil]
  rfl

theorem digitChar_injOn : ∀ a, a < 10 → ∀ b, b < 10 →
    Nat.digitChar a = Nat.digitChar b → a = b := by decide

theorem map_digitChar_inj : ∀ (l1 l2 : List Nat), (∀ x ∈ l1, x < 10) → (∀ x ∈ l2, x < 10) →
    l1.map Nat.digitChar = l2.map Nat.digitChar → l1 = l2 := by
  intro l1
  induction l1 with
  | nil =>
    intro l2 _ _ h
    cases l2 with
    | nil => rfl
    | cons b t => simp at h
  | cons a t1 ih =>
    intro l2 h1 h2 h
    cases l2 with
    | nil => simp at h
    | cons b t2 =>
      simp only [List.map_cons, List.cons.injEq] at h
      have ha : a < 10 := h1 a (by simp)
      have hb : b < 10 := h2 b (by simp)
      have hab : a = b := digitChar_injOn a ha b hb h.1
      have ht : t1 = t2 := ih t2 (fun x hx => h1 x (by simp [hx])) (fun x hx => h2 x (by simp [hx])) h.2
      rw [hab, ht]

theorem reprChars_inj (m n : Nat) (h : reprChars m = reprChars n) : m = n := by
  by_cases hm : m = 0 <;> by_cases hn : n = 0
  · omega
  · exfalso
    rw [reprChars, if_pos hm, reprChars, if_neg hn] at h
    have h2 : (Nat.digits 10 n).map Nat.digitChar = ['0'] := by
      have := congrArg List.reverse h
      simpa using this.symm
    obtain ⟨d, hd, hchar⟩ : ∃ d, Nat.digits 10 n = [d] ∧ Nat.digitChar d = '0' := by
      cases hds : Nat.digits 10 n with
      | nil => rw [hds] at h2; simp at h2
      | cons d t =>
        rw [hds] at h2
        simp only [List.map_cons, List.cons.injEq] at h2
        have ht : t = [] := List.map_eq_nil_iff.mp h2.2
        exact ⟨d, by rw [ht], h2.1⟩
    have hdlt : d < 10 := Nat.digits_lt_base (by norm_num) (by rw [hd]; simp)
    have hd0 : d = 0 := digitChar_injOn d hdlt 0 (by norm_num) hchar
    have : n = Nat.ofDigits 10 (Nat.digits 10 n) := (Nat.ofDigits_digits 10 n).symm
    rw [hd, hd0] at this
    simp [Nat.ofDigits] at this
    exact hn this
  · exfalso
    rw [reprChars, if_neg hm, reprChars, if_pos hn] at h
    have h2 : (Nat.digits 10 m).map Nat.digitChar = ['0'] := by
      have := congrArg List.reverse h
      simpa using this
    obtain ⟨d, hd, hchar⟩ : ∃ d, Nat.digits 10 m = [d] ∧ Nat.digitChar d = '0' := by
      cases hds : Nat.digits 10 m with
      | nil => rw [hds] at h2; simp at h2
      | cons d t =>
        rw [hds] at h2
        simp only [List.map_cons, List.cons.injEq] at h2
        have ht : t = [] := List.map_eq_nil_iff.mp h2.2
        exact ⟨d, by rw [ht], h2.1⟩
    have hdlt : d < 10 := Nat.digits_lt_base (by norm_num) (by rw [hd]; simp)
    have hd0 : d = 0 := digitChar_injOn d hdlt 0 (by norm_num) hchar
    have : m = Nat.ofDigits 10 (Nat.digits 10 m) := (Nat.ofDigits_digits 10 m).symm
    rw [hd, hd0] at this
    simp [Nat.ofDigits] at this
    exact hm this
  · rw [reprChars, if_neg hm, reprChars, if_neg hn] at h
    have h2 := List.reverse_injective h
    have h3 := map_digitChar_inj _ _
      (fun x hx => Nat.digits_lt_base (by norm_num) hx)
      (fun x hx => Nat.digits_lt_base (by norm_num) hx) h2
    have := congrArg (Nat.ofDigits 10) h3
    rwa [Nat.ofDigits_digits, Nat.ofDigits_digits] at this

theorem repr_injective (m n : Nat) (h : Nat.repr m = Nat.repr n) : m = n := by
  rw [repr_eq_reprChars, repr_eq_reprChars] at h
  exact reprChars_inj m n (by injection h)

theorem string_append_left_cancel (a b c : String) (h : a ++ b = a ++ c) : b = c := by
  have hd : (a ++ b).data = (a ++ c).data := by rw [h]
  rw [String.data_append, String.data_append] at hd
  exact String.ext (List.append_cancel_left hd)

theorem valueNodeId_ne (nm : String) (c1 c2 : Nat) (h : c1 ≠ c2) :
    valueNodeId nm c1 ≠ valueNodeId nm c2 := by
  intro heq
  apply h
  have h1 := escape_label_inj _ _ heq
  have h2 := string_append_left_cancel nm _ _ h1
  exact repr_injective _ _ h2

theorem processOutput_of_some (o nm : String) (st : BuildState) (v : VNode)
    (h : st.nodes nm = some v) :
    (processOutput o st nm).counts nm = st.counts nm + 1 ∧
    (processOutput o st nm).nodes nm = some (makeValueNode nm (st.counts nm + 1)) ∧
    (processOutput o st nm).graph.edges =
      st.graph.edges ++ [⟨o, valueNodeId nm (st.counts nm + 1)⟩] ∧
    (processOutput o st nm).graph.nodes =
      st.graph.nodes ++ [makeValueNode nm (st.counts nm + 1)] := by
  simp [processOutput, h, updFn, addEdge, addNode, makeValueNode]

theorem processOutput_of_none (o nm : String) (st : BuildState)
    (h : st.nodes nm = none) :
    (processOutput o st nm).counts nm = st.counts nm ∧
    (processOutput o st nm).nodes nm = some (makeValueNode nm (st.counts nm)) ∧
    (processOutput o st nm).graph.edges =
      st.graph.edges ++ [⟨o, valueNodeId nm (st.counts nm)⟩] ∧
    (processOutput o st nm).graph.nodes =
      st.graph.nodes ++ [makeValueNode nm (st.counts nm)] := by
  simp [processOutput, h, updFn, addEdge, addNode, makeValueNode]

theorem processOutput_node_at_count (o nm : String) (st : BuildState) :
    (processOutput o st nm).nodes nm =
      some (makeValueNode nm ((processOutput o st nm).counts nm)) := by
  cases h : st.nodes nm with
  | none =>
    obtain ⟨hc, hn, _, _⟩ := processOutput_of_none o nm st h
    rw [hn, hc]
  | some v =>
    obtain ⟨hc, hn, _, _⟩ := processOutput_of_some o nm st v h
    rw [hn, hc]

/-- C1: within `GetPydotGraph`, writing an output name whose value node
already exists increments the per-name occurrence counter before the new
value node is created; two consecutive writes of the same name yield value
nodes with distinct identities (`_escape_label(name + str(count))`) but
the same display label (`_escape_label(name)`), and the edge
operator-node → new-value-node is appended. -/
theorem C1_rewrite_fresh_identity (st : BuildState) (opA opB nm : String) :
    ∃ n1 n2 : VNode,
      (processOutput opA st nm).nodes nm = some n1 ∧
      (processOutput opB (processOutput opA st nm) nm).nodes nm = some n2 ∧
      (processOutput opB (processOutput opA st nm) nm).counts nm =
        (processOutput opA st nm).counts nm + 1 ∧
      n2.name = valueNodeId nm ((processOutput opA st nm).counts nm + 1) ∧
      n1.name ≠ n2.name ∧
      n1.label = n2.label ∧
      (processOutput opB (processOutput opA st nm) nm).graph.edges =
        (processOutput opA st nm).graph.edges ++ [⟨opB, n2.name⟩] := by
  set st1 := processOutput opA st nm with hst1
  have h1 : st1.nodes nm = some (makeValueNode nm (st1.counts nm)) :=
    processOutput_node_at_count opA nm st
  obtain ⟨hc, hn, he, _⟩ := processOutput_of_some opB nm st1 _ h1
  refine ⟨makeValueNode nm (st1.counts nm), makeValueNode nm (st1.counts nm + 1),
    h1, hn, hc, rfl, ?_, rfl, ?_⟩
  · exact valueNodeId_ne nm _ _ (by omega)
  · exact he

/-- C2: on a single unnamed `Add` operator with inputs `x`,`y` and output
`z` and no highlights, the graph is exactly: one operator node labeled
`Add (op#0)` followed by the input and output lines, two input value
nodes (labels `x`,`y`), one output value node (label `z`), and the three
edges x→op, y→op, op→z. -/
theorem C2_single_add_scenario :
    GetPydotGraph [⟨"", "Add", ["x", "y"], ["z"], ""⟩] none "LR" none false [] =
      { name := none, rankdir := "LR",
        nodes := [
          ⟨"Add (op#0)\n input0 x\n input1 y\n output0 z", none, OP_STYLE, none⟩,
          ⟨escape_label "x0", some (escape_label "x"), BLOB_STYLE, none⟩,
          ⟨escape_label "y0", some (escape_label "y"), BLOB_STYLE, none⟩,
          ⟨escape_label "z0", some (escape_label "z"), BLOB_STYLE, none⟩],
        edges := [
          ⟨escape_label "x0", "Add (op#0)\n input0 x\n input1 y\n output0 z"⟩,
          ⟨escape_label "y0", "Add (op#0)\n input0 x\n input1 y\n output0 z"⟩,
          ⟨"Add (op#0)\n input0 x\n input1 y\n output0 z", escape_label "z0"⟩] } ∧
    ((GetPydotGraph [⟨"", "Add", ["x", "y"], ["z"], ""⟩] none "LR" none false []).nodes.filter
      isOpNode).length = 1 ∧
    ((GetPydotGraph [⟨"", "Add", ["x", "y"], ["z"], ""⟩] none "LR" none false []).nodes.filter
      (fun n => decide (n.style = BLOB_STYLE))).length = 3 ∧
    (GetPydotGraph [⟨"", "Add", ["x", "y"], ["z"], ""⟩] none "LR" none false []).edges.length = 3 := by
  refine ⟨?_, by decide, by decide, by decide⟩
  decide

theorem isOpNode_blob (v : VNode) (h : v.style = BLOB_STYLE) : isOpNode v = false := by
  simp only [isOpNode, h, Bool.or_eq_false_iff, decide_eq_false_iff_not]
  constructor <;> decide

theorem isOpNode_op (v : VNode) (h : v.style = OP_STYLE ∨ v.style = OP_STYLE_1) :
    isOpNode v = true := by
  rcases h with h | h <;> simp [isOpNode, h]

theorem filter_isOpNode_processInput (o i : String) (st : BuildState) (hb : MapBlob st) :
    (processInput o st i).graph.nodes.filter isOpNode = st.graph.nodes.filter isOpNode ∧
    MapBlob (processInput o st i) := by
  unfold processInput
  cases h : st.nodes i with
  | none =>
    constructor
    · simp [addEdge, addNode, List.filter_append, isOpNode_blob (makeValueNode i (st.counts i)) rfl]
    · intro nm v hv
      simp only [updFn] at hv
      by_cases hnm : nm = i
      · rw [if_pos hnm] at hv
        cases hv
        rfl
      · rw [if_neg hnm] at hv
        exact hb nm v hv
  | some v =>
    constructor
    · simp [addEdge, addNode, List.filter_append, isOpNode_blob v (hb i v h)]
    · exact hb

theorem filter_isOpNode_processOutput (o i : String) (st : BuildState) (hb : MapBlob st) :
    (processOutput o st i).graph.nodes.filter isOpNode = st.graph.nodes.filter isOpNode ∧
    MapBlob (processOutput o st i) := by
  unfold processOutput
  constructor
  · simp [addEdge, addNode, List.filter_append, isOpNode_blob (makeValueNode i _) rfl]
  · intro nm v hv
    simp only [updFn] at hv
    by_cases hnm : nm = i
    · rw [if_pos hnm] at hv
      cases hv
      rfl
    · rw [if_neg hnm] at hv
      exact hb nm v hv

theorem filter_isOpNode_foldl_inputs (o : String) : ∀ (l : List String) (st : BuildState),
    MapBlob st →
    (l.foldl (processInput o) st).graph.nodes.filter isOpNode =
      st.graph.nodes.filter isOpNode ∧
    MapBlob (l.foldl (processInput o) st) := by
  intro l
  induction l with
  | nil => intro st hb; exact ⟨rfl, hb⟩
  | cons i rest ih =>
    intro st hb
    obtain ⟨h1, h2⟩ := filter_isOpNode_processInput o i st hb
    obtain ⟨h3, h4⟩ := ih (processInput o st i) h2
    exact ⟨by rw [List.foldl_cons, h3, h1], by rw [List.foldl_cons]; exact h4⟩

theorem filter_isOpNode_foldl_outputs (o : String) : ∀ (l : List String) (st : BuildState),
    MapBlob st →
    (l.foldl (processOutput o) st).graph.nodes.filter isOpNode =
      st.graph.nodes.filter isOpNode ∧
    MapBlob (l.foldl (processOutput o) st) := by
  intro l
  induction l with
  | nil => intro st hb; exact ⟨rfl, hb⟩
  | cons i rest ih =>
    intro st hb
    obtain ⟨h1, h2⟩ := filter_isOpNode_processOutput o i st hb
    obtain ⟨h3, h4⟩ := ih (processOutput o st i) h2
    exact ⟨by rw [List.foldl_cons, h3, h1], by rw [List.foldl_cons]; exact h4⟩

theorem op_node_eq_styleFor (e : Bool) (ml : List Int) (op : Op) (i : Nat) :
    (if (i : Int) ∈ ml then ReallyGetOpNode e op i OP_STYLE_1
     else ReallyGetOpNode e op i OP_STYLE) = ReallyGetOpNode e op i (styleFor ml i) := by
  by_cases hc : (i : Int) ∈ ml <;> simp [styleFor, hc]

theorem filter_isOpNode_processOp (e : Bool) (ml : List Int) (st : BuildState) (op : Op)
    (i : Nat) (hb : MapBlob st) :
    (processOp (ReallyGetOpNode e) ml st op i).graph.nodes.filter isOpNode =
      st.graph.nodes.filter isOpNode ++ [ReallyGetOpNode e op i (styleFor ml i)] ∧
    MapBlob (processOp (ReallyGetOpNode e) ml st op i) := by
  unfold processOp
  rw [op_node_eq_styleFor]
  have hb1 : MapBlob { st with graph := addNode st.graph (ReallyGetOpNode e op i (styleFor ml i)) } := hb
  obtain ⟨h1, h2⟩ := filter_isOpNode_foldl_inputs (ReallyGetOpNode e op i (styleFor ml i)).name
    op.input _ hb1
  obtain ⟨h3, h4⟩ := filter_isOpNode_foldl_outputs (ReallyGetOpNode e op i (styleFor ml i)).name
    op.output _ h2
  refine ⟨?_, h4⟩
  rw [h3, h1]
  have hop : isOpNode (ReallyGetOpNode e op i (styleFor ml i)) = true := by
    apply isOpNode_op
    unfold styleFor
    by_cases hc : (i : Int) ∈ ml
    · rw [if_pos hc]; right; rfl
    · rw [if_neg hc]; left; rfl
  simp [addNode, List.filter_append, hop]

theorem filter_isOpNode_buildLoop (e : Bool) (ml : List Int) : ∀ (ops : List Op)
    (st : BuildState) (i : Nat), MapBlob st →
    (buildLoop (ReallyGetOpNode e) ml st i ops).graph.nodes.filter isOpNode =
      st.graph.nodes.filter isOpNode ++ expectedOpNodes e ml i ops := by
  intro ops
  induction ops with
  | nil => intro st i _; simp [buildLoop, expectedOpNodes]
  | cons op rest ih =>
    intro st i hb
    obtain ⟨h1, h2⟩ := filter_isOpNode_processOp e ml st op i hb
    rw [buildLoop, ih _ _ h2, h1, expectedOpNodes]
    simp

theorem expectedOpNodes_length (e : Bool) (ml : List Int) : ∀ (ops : List Op) (i : Nat),
    (expectedOpNodes e ml i ops).length = ops.length := by
  intro ops
  induction ops with
  | nil => intro i; rfl
  | cons op rest ih => intro i; simp [expectedOpNodes, ih]

theorem addIndexedLines_eq (tag : String) : ∀ (l : List String) (acc : String) (k : Nat),
    addIndexedLines tag acc k l =
      acc ++ joinLines ((List.enumFrom k l).map fun p =>
        "\n " ++ tag ++ Nat.repr p.1 ++ " " ++ p.2) := by
  intro l
  induction l with
  | nil =>
    intro acc k
    show acc = acc ++ joinLines []
    apply String.ext
    simp [joinLines]
  | cons x rest ih =>
    intro acc k
    show addIndexedLines tag (acc ++ "\n " ++ tag ++ Nat.repr k ++ " " ++ x) (k + 1) rest = _
    rw [ih]
    simp only [List.enumFrom, List.map_cons, joinLines]
    apply String.ext
    simp [String.data_append]

theorem GetPydotGraph_filter_isOpNode (ops : List Op) (nm : Option String) (rd : String)
    (e : Bool) (ml : List Int) :
    (GetPydotGraph ops nm rd none e ml).nodes.filter isOpNode = expectedOpNodes e ml 0 ops := by
  have hinit : MapBlob (initState nm rd) := by
    intro x v hv
    simp [initState] at hv
  show ((buildLoop (ReallyGetOpNode e) ml (initState nm rd) 0 ops).graph.nodes.filter
    isOpNode) = _
  rw [filter_isOpNode_buildLoop e ml ops (initState nm rd) 0 hinit]
  simp [initState]

theorem expectedOpNodes_getElem (e : Bool) (ml : List Int) : ∀ (ops : List Op) (k i : Nat),
    i < ops.length →
    (expectedOpNodes e ml k ops)[i]? =
      some (ReallyGetOpNode e (ops.getD i ⟨"", "", [], [], ""⟩) (k + i) (styleFor ml (k + i))) := by
  intro ops
  induction ops with
  | nil => intro k i hi; simp at hi
  | cons op rest ih =>
    intro k i hi
    cases i with
    | zero => simp [expectedOpNodes]
    | succ j =>
      have hj : j < rest.length := by simpa using hi
      have := ih (k + 1) j hj
      simp only [expectedOpNodes, List.getElem?_cons_succ, List.getD_cons_succ]
      rw [this]
      have harith : k + 1 + j = k + (j + 1) := by omega
      rw [harith]

/-- C3: `GetPydotGraph` (with the default node producer) creates exactly
one operator node per operator; the operator nodes are exactly
`expectedOpNodes`, whose entry at index `i` is built by `ReallyGetOpNode`;
and an operator node's identity/label is the deterministic function of the
operator name (omitted when empty), type, sequence index, and the
enumerated input and output lists. -/
theorem C3_op_node_labels (ops : List Op) (nm : Option String) (rd : String) (e : Bool)
    (ml : List Int) :
    ((GetPydotGraph ops nm rd none e ml).nodes.filter isOpNode).length = ops.length ∧
    (GetPydotGraph ops nm rd none e ml).nodes.filter isOpNode = expectedOpNodes e ml 0 ops ∧
    ∀ (op : Op) (i : Nat) (kw : Style),
      (ReallyGetOpNode e op i kw).name =
        (if op.name = "" then op.op_type ++ " (op#" ++ Nat.repr i ++ ")"
         else op.name ++ "/" ++ op.op_type ++ " (op#" ++ Nat.repr i ++ ")") ++
        joinLines ((List.enumFrom 0 op.input).map fun p =>
          "\n " ++ "input" ++ Nat.repr p.1 ++ " " ++ p.2) ++
        joinLines ((List.enumFrom 0 op.output).map fun p =>
          "\n " ++ "output" ++ Nat.repr p.1 ++ " " ++ p.2) := by
  have hfilter := GetPydotGraph_filter_isOpNode ops nm rd e ml
  refine ⟨by rw [hfilter, expectedOpNodes_length], hfilter, ?_⟩
  intro op i kw
  show (addIndexedLines "output" (addIndexedLines "input" (baseOpName op i) 0 op.input)
    0 op.output) = _
  rw [addIndexedLines_eq, addIndexedLines_eq]
  have hbase : baseOpName op i =
      (if op.name = "" then op.op_type ++ " (op#" ++ Nat.repr i ++ ")"
       else op.name ++ "/" ++ op.op_type ++ " (op#" ++ Nat.repr i ++ ")") := by
    unfold baseOpName
    by_cases h : op.name = "" <;> simp [h]
  rw [hbase]

/-- C4: with highlight list `[0, 2]` on three operators, the operator
nodes get styles highlighted, default, highlighted; in general the
operator node at index `i` carries `OP_STYLE_1` iff `i` is in the given
highlight list, else `OP_STYLE`. -/
theorem C4_highlight_styles :
    (((GetPydotGraph [⟨"", "A", [], [], ""⟩, ⟨"", "B", [], [], ""⟩, ⟨"", "C", [], [], ""⟩]
        none "LR" none false [0, 2]).nodes.filter isOpNode).map fun n => n.style) =
      [OP_STYLE_1, OP_STYLE, OP_STYLE_1] ∧
    ∀ (ops : List Op) (nm : Option String) (rd : String) (e : Bool) (ml : List Int) (i : Nat),
      i < ops.length →
      ∃ n : VNode, ((GetPydotGraph ops nm rd none e ml).nodes.filter isOpNode)[i]? = some n ∧
        (n.style = OP_STYLE_1 ↔ (i : Int) ∈ ml) := by
  constructor
  · decide
  · intro ops nm rd e ml i hi
    refine ⟨ReallyGetOpNode e (ops.getD i ⟨"", "", [], [], ""⟩) i (styleFor ml i), ?_, ?_⟩
    · rw [GetPydotGraph_filter_isOpNode, expectedOpNodes_getElem e ml ops 0 i hi]
      simp
    · show styleFor ml i = OP_STYLE_1 ↔ (i : Int) ∈ ml
      unfold styleFor
      by_cases hc : (i : Int) ∈ ml
      · simp [hc]
      · rw [if_neg hc]
        constructor
        · intro h
          exact absurd h (by decide)
        · intro h
          exact absurd h hc

theorem C4_highlight_styles_witness :
    ∃ n : VNode,
      ((GetPydotGraph [⟨"", "A", [], [], ""⟩, ⟨"", "B", [], [], ""⟩, ⟨"", "C", [], [], ""⟩]
        none "LR" none false [0, 2]).nodes.filter isOpNode)[1]? = some n ∧
      (n.style = OP_STYLE_1 ↔ ((1 : Nat) : Int) ∈ [(0 : Int), 2]) :=
  C4_highlight_styles.2 [⟨"", "A", [], [], ""⟩, ⟨"", "B", [], [], ""⟩, ⟨"", "C", [], [], ""⟩]
    none "LR" false [0, 2] 1 (by decide)

/-- C5: `GetPydotGraph` is deterministic: two runs on equal inputs (same
operator sequence, name, rankdir, node producer, highlight list) produce
identical visual graphs, node for node and edge for edge. -/
theorem C5_deterministic (ops1 ops2 : List Op) (nm1 nm2 : Option String) (rd1 rd2 : String)
    (np1 np2 : Option (Op → Nat → Style → VNode)) (e1 e2 : Bool) (ml1 ml2 : List Int)
    (hops : ops1 = ops2) (hnm : nm1 = nm2) (hrd : rd1 = rd2) (hnp : np1 = np2)
    (he : e1 = e2) (hml : ml1 = ml2) :
    GetPydotGraph ops1 nm1 rd1 np1 e1 ml1 = GetPydotGraph ops2 nm2 rd2 np2 e2 ml2 := by
  subst hops hnm hrd hnp he hml
  rfl

theorem C5_deterministic_witness :
    GetPydotGraph [⟨"", "Add", ["x", "y"], ["z"], ""⟩] none "LR" none false [] =
      GetPydotGraph [⟨"", "Add", ["x", "y"], ["z"], ""⟩] none "LR" none false [] :=
  C5_deterministic _ _ _ _ _ _ _ _ _ _ _ _ rfl rfl rfl rfl rfl rfl

/-- C6: `_escape_label` (JSON string escaping) is round-trip safe: the
quoted form decodes back to the original name with the closing quote
consuming the entire output, so no structural character — in particular no
interior double quote — survives unescaped to terminate the label early. -/
theorem C6_escape_label_roundtrip (s : String) : decodeLabel (escape_label s) = some s :=
  decodeLabel_escape s

theorem mem_sanitized (c : Char) (l : List Char)
    (h : c ∈ removeChar '>' (removeChar '<' (replaceChar quoteChar aposChar l))) :
    ¬ c = quoteChar ∧ ¬ c = '<' ∧ ¬ c = '>' := by
  have h1 := List.mem_filter.mp h
  have hne3 : ¬ c = '>' := by simpa using h1.2
  have h2 := List.mem_filter.mp h1.1
  have hne2 : ¬ c = '<' := by simpa using h2.2
  obtain ⟨x, _, hx⟩ := List.mem_map.mp h2.1
  have hne1 : ¬ c = quoteChar := by
    by_cases hxq : x = quoteChar
    · rw [if_pos hxq] at hx
      rw [← hx]
      decide
    · rw [if_neg hxq] at hx
      rw [← hx]
      exact hxq
  exact ⟨hne1, hne2, hne3⟩

/-- C7: with docstring embedding enabled, the operator node's clickable
URL is `_form_and_sanitize_docstring` of the operator's docstring, and
that string contains no double-quote and no angle-bracket characters. -/
theorem C7_docstring_url_sanitized (op : Op) (op_id : Nat) (kw : Style) :
    (ReallyGetOpNode true op op_id kw).url =
      some (form_and_sanitize_docstring op.doc_string) ∧
    ((form_and_sanitize_docstring op.doc_string).data.all fun c =>
      !(c == quoteChar) && !(c == '<') && !(c == '>')) = true := by
  refine ⟨rfl, ?_⟩
  show (("javascript:alert(".data ++
    ((removeChar '>' (removeChar '<'
      (replaceChar quoteChar aposChar (escape_label op.doc_string).data))) ++ [')'])).all _) = true
  rw [List.all_append, List.all_append]
  have hlit : (("javascript:alert(".data).all fun c =>
      !(c == quoteChar) && !(c == '<') && !(c == '>')) = true := by decide
  have hrp : (([')']).all fun c =>
      !(c == quoteChar) && !(c == '<') && !(c == '>')) = true := by decide
  rw [hlit, hrp]
  simp only [Bool.true_and, Bool.and_true]
  rw [List.all_eq_true]
  intro c hc
  obtain ⟨n1, n2, n3⟩ := mem_sanitized c _ hc
  simp [n1, n2, n3]

theorem intListLoop_none : ∀ (l : List (List Char)),
    (∃ t ∈ l, pyInt (String.mk t) = none) →
    intListLoop l = none := by
  intro l
  induction l with
  | nil => intro h; simp at h
  | cons a rest ih =>
    intro h
    rcases h with ⟨t, ht, hnone⟩
    rcases List.mem_cons.mp ht with heq | hmem
    · subst heq
      simp [intListLoop, hnone]
    · have hr := ih ⟨t, hmem, hnone⟩
      simp [intListLoop, hr]
      cases hpa : pyInt (String.mk a) <;> simp

/-- C8: when `--marked 1` is given and `--marked_list` contains a token
that is not a valid integer (an empty token included), `main` fails during
the highlight-list conversion, before the model file is read: the outcome
is `argError` whatever the file read would have produced. -/
theorem C8_bad_token_fails_before_read (s : String) (rd : String) (e : Bool)
    (file : Option (String × List Op))
    (h : ∃ t ∈ splitChar '_' s.data, pyInt (String.mk t) = none) :
    mainModel true s rd e file = MainResult.argError := by
  unfold mainModel computeMarkedList
  rw [if_pos rfl, intListLoop_none _ h]

theorem C8_bad_token_fails_before_read_witness :
    mainModel true "0_x" "LR" false (some ("g", [⟨"", "Add", ["x"], ["y"], ""⟩])) =
      MainResult.argError ∧
    mainModel true "" "LR" false (some ("g", [⟨"", "Add", ["x"], ["y"], ""⟩])) =
      MainResult.argError ∧
    mainModel true "0_x" "LR" false none = MainResult.argError :=
  ⟨C8_bad_token_fails_before_read "0_x" "LR" false _ (by decide),
   C8_bad_token_fails_before_read "" "LR" false _ (by decide),
   C8_bad_token_fails_before_read "0_x" "LR" false none (by decide)⟩

theorem NamePresent_addNode (o : String) (g : VGraph) (v : VNode) (h : NamePresent o g) :
    NamePresent o (addNode g v) := by
  obtain ⟨n, hn, hname⟩ := h
  exact ⟨n, List.mem_append_left _ hn, hname⟩

theorem NamePresent_addNode_self (g : VGraph) (v : VNode) : NamePresent v.name (addNode g v) :=
  ⟨v, List.mem_append_right _ (by simp), rfl⟩

theorem EdgesClosed_addNode (g : VGraph) (v : VNode) (h : EdgesClosed g) :
    EdgesClosed (addNode g v) := by
  intro e he
  obtain ⟨h1, h2⟩ := h e he
  exact ⟨NamePresent_addNode _ g v h1, NamePresent_addNode _ g v h2⟩

theorem EdgesClosed_addEdge_new (g : VGraph) (e : Edge) (hc : EdgesClosed g)
    (hsrc : NamePresent e.src g) (hdst : NamePresent e.dst g) :
    EdgesClosed (addEdge g e) := by
  intro e2 he2
  have hmem : e2 ∈ g.edges ∨ e2 = e := by
    simpa [addEdge] using he2
  rcases hmem with hold | hnew
  · exact hc e2 hold
  · subst hnew
    exact ⟨hsrc, hdst⟩

theorem EdgesClosed_processInput (o i : String) (st : BuildState)
    (hc : EdgesClosed st.graph) (hp : NamePresent o st.graph) :
    EdgesClosed (processInput o st i).graph ∧ NamePresent o (processInput o st i).graph := by
  unfold processInput
  cases h : st.nodes i with
  | none =>
    exact ⟨EdgesClosed_addEdge_new _ _ (EdgesClosed_addNode _ _ hc)
        (NamePresent_addNode_self st.graph _) (NamePresent_addNode o st.graph _ hp),
      NamePresent_addNode o st.graph _ hp⟩
  | some v =>
    exact ⟨EdgesClosed_addEdge_new _ _ (EdgesClosed_addNode _ _ hc)
        (NamePresent_addNode_self st.graph v) (NamePresent_addNode o st.graph _ hp),
      NamePresent_addNode o st.graph _ hp⟩

theorem EdgesClosed_processOutput (o i : String) (st : BuildState)
    (hc : EdgesClosed st.graph) (hp : NamePresent o st.graph) :
    EdgesClosed (processOutput o st i).graph ∧ NamePresent o (processOutput o st i).graph := by
  unfold processOutput
  exact ⟨EdgesClosed_addEdge_new _ _ (EdgesClosed_addNode _ _ hc)
      (NamePresent_addNode o st.graph _ hp) (NamePresent_addNode_self st.graph _),
    NamePresent_addNode o st.graph _ hp⟩

theorem inputStates_closed (o : String) : ∀ (l : List String) (st : BuildState),
    EdgesClosed st.graph → NamePresent o st.graph →
    (∀ s ∈ inputStates o st l, EdgesClosed s.graph) ∧
    EdgesClosed (l.foldl (processInput o) st).graph ∧
    NamePresent o (l.foldl (processInput o) st).graph := by
  intro l
  induction l with
  | nil => intro st hc hp; exact ⟨by simp [inputStates], hc, hp⟩
  | cons i rest ih =>
    intro st hc hp
    obtain ⟨hc2, hp2⟩ := EdgesClosed_processInput o i st hc hp
    obtain ⟨hall, hfin, hpfin⟩ := ih (processInput o st i) hc2 hp2
    refine ⟨?_, hfin, hpfin⟩
    intro s hs
    rcases List.mem_cons.mp hs with heq | hmem
    · subst heq; exact hc2
    · exact hall s hmem

theorem outputStates_closed (o : String) : ∀ (l : List String) (st : BuildState),
    EdgesClosed st.graph → NamePresent o st.graph →
    (∀ s ∈ outputStates o st l, EdgesClosed s.graph) ∧
    EdgesClosed (l.foldl (processOutput o) st).graph ∧
    NamePresent o (l.foldl (processOutput o) st).graph := by
  intro l
  induction l with
  | nil => intro st hc hp; exact ⟨by simp [outputStates], hc, hp⟩
  | cons i rest ih =>
    intro st hc hp
    obtain ⟨hc2, hp2⟩ := EdgesClosed_processOutput o i st hc hp
    obtain ⟨hall, hfin, hpfin⟩ := ih (processOutput o st i) hc2 hp2
    refine ⟨?_, hfin, hpfin⟩
    intro s hs
    rcases List.mem_cons.mp hs with heq | hmem
    · subst heq; exact hc2
    · exact hall s hmem

theorem inputStates_getLastD (o : String) : ∀ (l : List String) (st : BuildState),
    (inputStates o st l).getLastD st = l.foldl (processInput o) st := by
  intro l
  induction l with
  | nil => intro st; rfl
  | cons i rest ih =>
    intro st
    show (processInput o st i :: inputStates o (processInput o st i) rest).getLastD st = _
    rw [List.getLastD_cons, ih]
    rfl

theorem outputStates_getLastD (o : String) : ∀ (l : List String) (st : BuildState),
    (outputStates o st l).getLastD st = l.foldl (processOutput o) st := by
  intro l
  induction l with
  | nil => intro st; rfl
  | cons i rest ih =>
    intro st
    show (processOutput o st i :: outputStates o (processOutput o st i) rest).getLastD st = _
    rw [List.getLastD_cons, ih]
    rfl

theorem getLastD_append {α : Type} : ∀ (l1 l2 : List α) (d : α),
    (l1 ++ l2).getLastD d = l2.getLastD (l1.getLastD d) := by
  intro l1
  induction l1 with
  | nil => intro l2 d; rfl
  | cons a t ih =>
    intro l2 d
    rw [List.cons_append, List.getLastD_cons, ih, List.getLastD_cons]

theorem opStates_closed (np : Op → Nat → Style → VNode) (ml : List Int) (st : BuildState)
    (op : Op) (i : Nat) (hc : EdgesClosed st.graph) :
    (∀ s ∈ opStates np ml st op i, EdgesClosed s.graph) ∧
    EdgesClosed (processOp np ml st op i).graph := by
  unfold opStates processOp
  set op_node := (if (i : Int) ∈ ml then np op i OP_STYLE_1 else np op i OP_STYLE) with hop
  set st1 : BuildState := { st with graph := addNode st.graph op_node } with hst1
  have hc1 : EdgesClosed st1.graph := EdgesClosed_addNode _ _ hc
  have hp1 : NamePresent op_node.name st1.graph := NamePresent_addNode_self st.graph op_node
  obtain ⟨hallIn, hcIn, hpIn⟩ := inputStates_closed op_node.name op.input st1 hc1 hp1
  have hlast : (inputStates op_node.name st1 op.input).getLastD st1 =
      op.input.foldl (processInput op_node.name) st1 := inputStates_getLastD _ _ _
  obtain ⟨hallOut, hcOut, hpOut⟩ := outputStates_closed op_node.name op.output
    (op.input.foldl (processInput op_node.name) st1) hcIn hpIn
  constructor
  · intro s hs
    rcases List.mem_cons.mp hs with heq | hmem
    · subst heq
      exact hc1
    · rcases List.mem_append.mp hmem with hin | hout
      · exact hallIn s hin
      · rw [hlast] at hout
        exact hallOut s hout
  · exact hcOut

theorem buildStates_closed (np : Op → Nat → Style → VNode) (ml : List Int) :
    ∀ (ops : List Op) (st : BuildState) (i : Nat), EdgesClosed st.graph →
    (∀ s ∈ buildStates np ml st i ops, EdgesClosed s.graph) ∧
    EdgesClosed (buildLoop np ml st i ops).graph := by
  intro ops
  induction ops with
  | nil => intro st i hc; exact ⟨by simp [buildStates], hc⟩
  | cons op rest ih =>
    intro st i hc
    obtain ⟨hallOp, hcOp⟩ := opStates_closed np ml st op i hc
    obtain ⟨hallRest, hcRest⟩ := ih (processOp np ml st op i) (i + 1) hcOp
    refine ⟨?_, hcRest⟩
    intro s hs
    rcases List.mem_append.mp (by simpa [buildStates] using hs) with h1 | h2
    · exact hallOp s h1
    · exact hallRest s h2

theorem opStates_getLastD (np : Op → Nat → Style → VNode) (ml : List Int) (st : BuildState)
    (op : Op) (i : Nat) :
    (opStates np ml st op i).getLastD st = processOp np ml st op i := by
  unfold opStates processOp
  dsimp only
  rw [getLastD_append, List.getLastD_cons, inputStates_getLastD, outputStates_getLastD]

theorem buildStates_getLastD (np : Op → Nat → Style → VNode) (ml : List Int) :
    ∀ (ops : List Op) (st : BuildState) (i : Nat),
    (buildStates np ml st i ops).getLastD st = buildLoop np ml st i ops := by
  intro ops
  induction ops with
  | nil => intro st i; rfl
  | cons op rest ih =>
    intro st i
    show (opStates np ml st op i ++ buildStates np ml (processOp np ml st op i) (i + 1) rest).getLastD st = _
    rw [getLastD_append, opStates_getLastD, ih]
    rfl

theorem edgesClosedB_iff (g : VGraph) : edgesClosedB g = true ↔ EdgesClosed g := by
  unfold edgesClosedB EdgesClosed NamePresent
  simp [List.all_eq_true, List.any_eq_true, beq_iff_eq]

/-- C9: every edge `GetPydotGraph` adds connects two nodes already added
to the graph at the moment the edge is added: every intermediate build
state (after the operator node, after each input, after each output) has
all edge endpoints among its nodes, and the final graph is the last
intermediate state. -/
theorem C9_edges_connect_present_nodes (ops : List Op) (nm : Option String) (rd : String)
    (np : Option (Op → Nat → Style → VNode)) (e : Bool) (ml : List Int) :
    ((buildStates (np.getD (GetOpNodeProducer e)) ml (initState nm rd) 0 ops).all
      fun s => edgesClosedB s.graph) = true ∧
    GetPydotGraph ops nm rd np e ml =
      ((buildStates (np.getD (GetOpNodeProducer e)) ml (initState nm rd) 0 ops).getLastD
        (initState nm rd)).graph := by
  have hinit : EdgesClosed (initState nm rd).graph := by
    intro e2 he2
    simp [initState] at he2
  obtain ⟨hall, _⟩ :=
    buildStates_closed (np.getD (GetOpNodeProducer e)) ml ops (initState nm rd) 0 hinit
  constructor
  · rw [List.all_eq_true]
    intro s hs
    exact (edgesClosedB_iff s.graph).mpr (hall s hs)
  · rw [buildStates_getLastD]
    rfl

/-- C10 counterexample: the claim's example is false on the code: the
value-node identity appends the decimal counter to the name before
escaping, so name `z10` at occurrence 0 yields `_escape_label("z100")`,
not the identity of name `z` at occurrence 10, and no identity equals the
bare string `z10`. -/
theorem C10_counterexample :
    ¬ (valueNodeId "z10" 0 = valueNodeId "z" 10) ∧ ¬ (valueNodeId "z10" 0 = "z10") := by
  decide

/-- C10 (amended): value-node identities are not injective across value
names, because the identity is the escape of the name concatenated with
the decimal counter: the distinct names `z` (at occurrence 10) and `z1`
(at occurrence 0) yield the same identity `_escape_label("z10")`; in a
graph where `z` is written eleven times and `z1` once, two value nodes
with different labels share that one identity. -/
theorem C10_amended_identities_collide :
    ("z" ≠ "z1" ∧ valueNodeId "z" 10 = valueNodeId "z1" 0) ∧
    ((GetPydotGraph
        (List.replicate 11 ⟨"", "W", [], ["z"], ""⟩ ++ [⟨"", "W", [], ["z1"], ""⟩])
        none "LR" none false []).nodes.filter fun n =>
          n.name == valueNodeId "z" 10).map (fun n => n.label) =
      [some (escape_label "z"), some (escape_label "z1")] := by
  refine ⟨⟨by decide, by decide⟩, by decide⟩

end NetDrawer
